import Mathlib

/-!
Verification development for the navigare client-side router core.

The TypeScript sources are shallowly embedded as executable Lean
definitions: JSON-ish runtime values become the inductive `PVal`,
JavaScript objects become association lists in insertion order, and the
stateful router operations become pure state-passing functions.  Each
definition mirrors one function of `packages/core/src/utilities.ts` or of
the `Router` class, and carries a comment pointing at the lines it embeds.
-/

set_option autoImplicit false

namespace Navigare

/-! ## JavaScript value model

`PVal` models the `FormDataConvertible` / `Properties` value universe of
`packages/core/src/types`: strings, numbers, booleans, `null`, arrays,
plain objects, `Blob`, `File` (with its name), `FileList` (with its
length) and `Date` (with its ISO string).  JavaScript objects are modelled
as association lists of key/value pairs in insertion order, without
duplicate keys.
-/

inductive PVal where
  | str : String → PVal
  | num : Int → PVal
  | bool : Bool → PVal
  | null : PVal
  | arr : List PVal → PVal
  | obj : List (String × PVal) → PVal
  | blob : PVal
  | file : String → PVal
  | fileList : Nat → PVal
  | date : String → PVal

/-- Lookup of a key in a JavaScript object (association list); absence of
the key models a `undefined` read. -/
def alistLookup {α : Type} : List (String × α) → String → Option α
  | [], _ => none
  | (k, v) :: rest, key => if k == key then some v else alistLookup rest key

/-- Write of a key in a JavaScript object: an existing key keeps its
insertion position, a new key is appended, as in `{...acc, [name]: v}`. -/
def alistSet {α : Type} : List (String × α) → String → α → List (String × α)
  | [], key, v => [(key, v)]
  | (k, w) :: rest, key, v =>
    if k == key then (k, v) :: rest else (k, w) :: alistSet rest key v

/-- Object spread `{...a, ...b}`: keys of `a` in order with values of `b`
winning on conflicts, followed by the keys of `b` that are not in `a`. -/
def objSpread (a b : List (String × PVal)) : List (String × PVal) :=
  (a.map (fun kv => match alistLookup b kv.1 with
    | some v => (kv.1, v)
    | none => kv))
    ++ b.filter (fun kv => (alistLookup a kv.1).isNone)

/-- Character-list test that `s` starts with the pattern `p`. -/
def charsStart : List Char → List Char → Bool
  | _, [] => true
  | [], _ :: _ => false
  | c :: cs, p :: ps => c == p && charsStart cs ps

/-- `String.startsWith`, evaluated structurally on the character lists. -/
def strStarts (s p : String) : Bool :=
  charsStart s.data p.data

/-- `String.includes` for one character. -/
def strHas (s : String) (c : Char) : Bool :=
  s.data.contains c

/-! ## transformPropertyKeys

Embeds `transformPropertyKeys` of `packages/core/src/utilities.ts`
(lines 656-674): every key of the properties object is transformed unless
it starts with `__`; values that are objects but neither arrays nor
`Blob` nor `Date` instances are transformed recursively.  The two
functions below are the value side and the entry-list side of the same
recursion.
-/

mutual

def transformKeysValue (t : String → String) : PVal → PVal
  | .obj ps => .obj (transformPropertyKeys t ps)
  | .str s => .str s
  | .num n => .num n
  | .bool b => .bool b
  | .null => .null
  | .arr vs => .arr vs
  | .blob => .blob
  | .file n => .file n
  | .fileList n => .fileList n
  | .date d => .date d

def transformPropertyKeys (t : String → String) :
    List (String × PVal) → List (String × PVal)
  | [] => []
  | (k, v) :: rest =>
    (if strStarts k "__" then k else t k, transformKeysValue t v)
      :: transformPropertyKeys t rest

end

/-! Specification-side relations for the key-transformation claim: the
output entry list keeps `__`-prefixed keys verbatim, transforms every
other key, and relates object values recursively under the same rule
while leaving non-object values untouched. -/

mutual

inductive KeyRuleValue (t : String → String) : PVal → PVal → Prop where
  | scalar : ∀ v : PVal, (∀ ps, v ≠ PVal.obj ps) → KeyRuleValue t v v
  | obj : ∀ ps qs, KeyRuleEntries t ps qs →
      KeyRuleValue t (PVal.obj ps) (PVal.obj qs)

inductive KeyRuleEntries (t : String → String) :
    List (String × PVal) → List (String × PVal) → Prop where
  | nil : KeyRuleEntries t [] []
  | keep : ∀ k v v' rest rest', strStarts k "__" = true →
      KeyRuleValue t v v' → KeyRuleEntries t rest rest' →
      KeyRuleEntries t ((k, v) :: rest) ((k, v') :: rest')
  | xform : ∀ k v v' rest rest', strStarts k "__" = false →
      KeyRuleValue t v v' → KeyRuleEntries t rest rest' →
      KeyRuleEntries t ((k, v) :: rest) ((t k, v') :: rest')

end

/-! ## Event emitter

Embeds `createEmitter(...).emit` of `packages/core/src/utilities.ts`
(lines 502-531).  A listener is summarised by its observable behaviour
during one emission: whether it calls `preventDefault()` on the event,
and the value it returns (`0` for a falsy return, `n + 1` for the truthy
value `n`).  The emission walks the priority listeners followed by the
registered listeners in registration order, returns the first truthy
result at once, returns `false` as soon as a cancelable event has had its
default prevented, and returns `true` otherwise.
-/

structure ListenerB where
  prevents : Bool
  result : Nat
deriving DecidableEq

inductive EmitResult where
  | value : Nat → EmitResult
  | prevented : EmitResult
  | completed : EmitResult
deriving DecidableEq

/-- The loop body of `emit`; `prevented` is the `event.defaultPrevented`
flag accumulated so far, and the returned list records the listeners that
were actually invoked, in invocation order. -/
def emitGo (cancelable : Bool) : Bool → List ListenerB → EmitResult × List ListenerB
  | _, [] => (.completed, [])
  | prevented, l :: rest =>
    let prevented := prevented || (cancelable && l.prevents)
    if l.result ≠ 0 then (.value (l.result - 1), [l])
    else if cancelable && prevented then (.prevented, [l])
    else
      let r := emitGo cancelable prevented rest
      (r.1, l :: r.2)

/-- `emit`: the synthetic event starts with `defaultPrevented = false` and
the listener sequence is the priority listeners followed by the listeners
in registration order. -/
def emit (cancelable : Bool) (priorityListeners registered : List ListenerB) :
    EmitResult × List ListenerB :=
  emitGo cancelable false (priorityListeners ++ registered)

/-- The stopping condition of the emission loop has not been reached at
index `j` of the listener sequence `L`: the listener returned a falsy
value and, for a cancelable event, no listener up to and including `j`
has prevented the default. -/
def emitNoStop (cancelable : Bool) (L : List ListenerB) (j : Nat) : Prop :=
  (∀ l, L.get? j = some l → l.result = 0) ∧
    (cancelable = true → (L.take (j + 1)).any (fun l => l.prevents) = false)

/-! ## Visits and cancellation

Embeds the `Visit` lifecycle state of the `Router` class.  A visit record
keeps the lifecycle flags; `hasCancelToken` states whether a transport
cancellation token was installed, `tokenCancelled` whether that token has
been invoked.
-/

structure VisitR where
  id : Nat
  background : Bool
  completed : Bool
  cancelled : Bool
  interrupted : Bool
  hasCancelToken : Bool
  tokenCancelled : Bool
deriving DecidableEq

/-- Embeds `Router.cancelVisit` (router source, lines 368-401): a no-op
unless `visitId` names the active visit and it is neither completed nor
cancelled; otherwise it invokes the cancellation token when present,
resets `completed`, sets `cancelled` and `interrupted`, and emits
`cancel` followed by `finish`.  The function returns the updated active
visit together with the names of the emitted events. -/
def cancelVisit (active : VisitR) (visitId : Nat) (interrupt : Bool) :
    VisitR × List String :=
  if active.id ≠ visitId then (active, [])
  else if active.completed || active.cancelled then (active, [])
  else
    ({ active with
        tokenCancelled := active.tokenCancelled || active.hasCancelToken
        completed := false
        cancelled := true
        interrupted := interrupt },
      ["cancel", "finish"])

/-- Synchronous observable steps of `Router.visit` between the `before`
emission and the `start` emission (router source, lines 502-538).  The
call `this.cancelVisit(this.activeVisit.id, true)` is not awaited: its
body runs synchronously up to its first `await`, which covers the token
invocation and the flag assignments; the `flagsSet` trace entry records
that synchronous transition.  The `cancel` and `finish` emissions it
initiates are suspended at that point and are not part of this
synchronous trace. -/
inductive TraceEv where
  | evBefore : Nat → TraceEv
  | flagsSet : Nat → Bool → Bool → TraceEv
  | evStart : Nat → TraceEv
deriving DecidableEq

structure RouterVisitState where
  activeVisit : VisitR
deriving DecidableEq

/-- Embeds the start of `Router.visit` for a fresh visit `b`:
`beforeOk` is the result of the cancelable `before` emission (a falsy
result returns the visit immediately); for a non-background visit the
active visit is cancelled as interrupted, a cancellation token is
installed on `b`, and `b` becomes the active visit before `start` is
emitted.  Returns the new state, the final record of the interrupted
visit when one was interrupted, and the synchronous trace. -/
def visitStart (s : RouterVisitState) (b : VisitR) (beforeOk : Bool) :
    RouterVisitState × Option VisitR × List TraceEv :=
  if !beforeOk then (s, none, [.evBefore b.id])
  else if b.background then (s, none, [.evBefore b.id, .evStart b.id])
  else
    let a := (cancelVisit s.activeVisit s.activeVisit.id true).1
    let b := { b with hasCancelToken := true }
    ({ activeVisit := b }, some a,
      [.evBefore b.id, .flagsSet a.id a.cancelled a.interrupted, .evStart b.id])

/-! ## FormData conversion and file detection

Embeds `objectToFormData` / `appendToFormData` / `composeKey`
(`utilities.ts` lines 333-391) and `hasFiles` (lines 393-426).  A
`FormData` object is modelled as its entry list.  The model is the
browser context, so the `isSSR()` guard of `hasFiles` is `false`.
-/

inductive FormEntry where
  | str : String → FormEntry
  | fileE : String → FormEntry
  | blobE : FormEntry
deriving DecidableEq

def composeKey (parent : Option String) (key : String) : String :=
  match parent with
  | some p => p ++ "[" ++ key ++ "]"
  | none => key

mutual

def appendToFormData (form : List (String × FormEntry)) (key : String) :
    PVal → List (String × FormEntry)
  | .arr vs => appendArrayToFormData form key 0 vs
  | .date s => form ++ [(key, .str s)]
  | .file name => form ++ [(key, .fileE name)]
  | .blob => form ++ [(key, .blobE)]
  | .bool b => form ++ [(key, .str (if b then "1" else "0"))]
  | .str s => form ++ [(key, .str s)]
  | .num n => form ++ [(key, .str (toString n))]
  | .null => form ++ [(key, .str "")]
  | .fileList _ => form
  | .obj ps => objectToFormDataGo form (some key) ps

def appendArrayToFormData (form : List (String × FormEntry)) (key : String) :
    Nat → List PVal → List (String × FormEntry)
  | _, [] => form
  | i, v :: rest =>
    appendArrayToFormData
      (appendToFormData form (composeKey (some key) (toString i)) v) key
      (i + 1) rest

def objectToFormDataGo (form : List (String × FormEntry))
    (parent : Option String) :
    List (String × PVal) → List (String × FormEntry)
  | [] => form
  | (k, v) :: rest =>
    objectToFormDataGo (appendToFormData form (composeKey parent k) v)
      parent rest

end

def objectToFormData (source : List (String × PVal)) :
    List (String × FormEntry) :=
  objectToFormDataGo [] none source

mutual

/-- `hasFiles` on a single value: `File` and `Blob` are file-like, a
non-empty `FileList` is file-like, and arrays and plain objects are
file-like when some reachable value is (`typeof data === 'object'`
covers both). -/
def hasFiles : PVal → Bool
  | .file _ => true
  | .blob => true
  | .fileList n => n ≠ 0
  | .obj ps => hasFilesEntries ps
  | .arr vs => hasFilesList vs
  | _ => false

def hasFilesList : List PVal → Bool
  | [] => false
  | v :: rest => hasFiles v || hasFilesList rest

def hasFilesEntries : List (String × PVal) → Bool
  | [] => false
  | (_, v) :: rest => hasFiles v || hasFilesEntries rest

end

/-! ## Locations and query strings

Embeds `mergeDataIntoQueryString` (`utilities.ts` lines 115-158) together
with the fractions of the platform it relies on: `new URL(href,
'http://localhost')` and the `qs` `parse` / `stringify` pair.  The URL
parser covers the shapes the router produces (no percent-normalisation
and no dot-segment resolution), and `qs` is modelled for the default
options the source passes (`ignoreQueryPrefix`, `encodeValuesOnly`, the
`indices` / `brackets` array formats, no percent-decoding on parse).
-/

inductive RouteMethod where
  | GET | POST | PUT | PATCH | DELETE
deriving DecidableEq

/-- Modelled from the spec: the runtime string carried by a
`RouteMethod` value (the `types` module defining the enum is not among
the sources); the spec writes the appended field as `_method=POST`, so
the value is the upper-case method name. -/
def methodName : RouteMethod → String
  | .GET => "GET"
  | .POST => "POST"
  | .PUT => "PUT"
  | .PATCH => "PATCH"
  | .DELETE => "DELETE"

inductive QueryStringArrayFormat where
  | indices | brackets
deriving DecidableEq

/-- Splits a character list at the first occurrence of `c`; the second
component is `none` when `c` does not occur. -/
def breakAtChar (c : Char) : List Char → List Char × Option (List Char)
  | [] => ([], none)
  | x :: xs =>
    if x == c then ([], some xs)
    else
      let r := breakAtChar c xs
      (x :: r.1, r.2)

/-- Prefix of the list before the first of the stop characters, together
with the remainder starting at that character. -/
def takeUntilAny (stops : List Char) : List Char → List Char × List Char
  | [] => ([], [])
  | x :: xs =>
    if stops.contains x then ([], x :: xs)
    else
      let r := takeUntilAny stops xs
      (x :: r.1, r.2)

/-- Decomposes `path?search#hash` (the fragment is delimited first, as in
the URL grammar); `search` keeps its `?` and `hash` its `#`. -/
def pathSearchHash (l : List Char) : List Char × List Char × List Char :=
  let bh := breakAtChar '#' l
  let ps := breakAtChar '?' bh.1
  (ps.1,
    match ps.2 with
    | some s => '?' :: s
    | none => [],
    match bh.2 with
    | some h => '#' :: h
    | none => [])

structure URLRec where
  protocol : String
  host : String
  pathname : String
  search : String
  hash : String
deriving DecidableEq

/-- `new URL(href, 'http://localhost')` for the href shapes the router
passes: an absolute `http(s)` URL, an absolute path, a bare query, a bare
fragment, or a relative path resolved against the base path `/`. -/
def parseURL (href : String) : URLRec :=
  let cs := href.data
  if strStarts href "http://" || strStarts href "https://" then
    let https := strStarts href "https://"
    let rest := cs.drop (if https then 8 else 7)
    let ht := takeUntilAny ['/', '?', '#'] rest
    let psh := pathSearchHash ht.2
    { protocol := if https then "https:" else "http:"
      host := String.mk ht.1
      pathname := if psh.1.isEmpty then "/" else String.mk psh.1
      search := String.mk psh.2.1
      hash := String.mk psh.2.2 }
  else
    let psh := pathSearchHash cs
    { protocol := "http:"
      host := "localhost"
      pathname :=
        if strStarts href "/" then String.mk psh.1
        else String.mk ('/' :: psh.1)
      search := String.mk psh.2.1
      hash := String.mk psh.2.2 }

/-- Splits a character list on a separator character. -/
def splitOnCharGo (c : Char) (acc : List Char) : List Char → List (List Char)
  | [] => [acc.reverse]
  | x :: xs =>
    if x == c then acc.reverse :: splitOnCharGo c [] xs
    else splitOnCharGo c (x :: acc) xs

def splitOnChar (c : Char) (l : List Char) : List (List Char) :=
  splitOnCharGo c [] l

/-- One `key=value` pair of `qs.parse`: duplicate keys are collected into
an array, a bare key parses to the empty string. -/
def parseQSPair (acc : List (String × PVal)) (part : List Char) :
    List (String × PVal) :=
  let kv := breakAtChar '=' part
  let key := String.mk kv.1
  let value : PVal := .str (String.mk (kv.2.getD []))
  match alistLookup acc key with
  | some (.arr xs) => alistSet acc key (.arr (xs ++ [value]))
  | some w => alistSet acc key (.arr [w, value])
  | none => alistSet acc key value

/-- `qs.parse(search, { ignoreQueryPrefix: true })` on the flat query
strings the router produces (bracketed nesting and percent-decoding are
outside the modelled subset). -/
def parseQS (search : String) : List (String × PVal) :=
  let cs := match search.data with
    | '?' :: rest => rest
    | cs => cs
  if cs.isEmpty then []
  else (splitOnChar '&' cs).foldl parseQSPair []

/-- The keys of the merge source that are new to the destination, kept in
source order (appended by `lodash.merge` after the destination keys). -/
def lodashMergeNewKeys (a b : List (String × PVal)) : List (String × PVal) :=
  b.filter (fun kv => (alistLookup a kv.1).isNone)

mutual

/-- `lodash.mergewith` with no customizer (that is, `lodash.merge`):
plain objects merge recursively, arrays merge index-wise, any other
source value replaces the destination value. -/
def lodashMergeVals : PVal → PVal → PVal
  | .obj a, .obj b => .obj (lodashMergeObjGo b a ++ lodashMergeNewKeys a b)
  | .arr a, .arr b => .arr (lodashMergeArr a b)
  | _, w => w

def lodashMergeObjGo (b : List (String × PVal)) :
    List (String × PVal) → List (String × PVal)
  | [] => []
  | (k, v) :: rest =>
    (k, match alistLookup b k with
      | some w => lodashMergeVals v w
      | none => v) :: lodashMergeObjGo b rest

def lodashMergeArr : List PVal → List PVal → List PVal
  | xs, [] => xs
  | [], ys => ys
  | x :: xs, y :: ys => lodashMergeVals x y :: lodashMergeArr xs ys

end

def lodashMergeObj (a b : List (String × PVal)) : List (String × PVal) :=
  lodashMergeObjGo b a ++ lodashMergeNewKeys a b

def hexDigit (n : Nat) : Char :=
  if n < 10 then Char.ofNat (48 + n) else Char.ofNat (55 + n)

def percentHex (n : Nat) : List Char :=
  ['%', hexDigit (n / 16), hexDigit (n % 16)]

/-- UTF-8 bytes of a character, for percent-encoding. -/
def utf8Bytes (c : Char) : List Nat :=
  let n := c.toNat
  if n < 0x80 then [n]
  else if n < 0x800 then [0xC0 + n / 0x40, 0x80 + n % 0x40]
  else if n < 0x10000 then
    [0xE0 + n / 0x1000, 0x80 + (n / 0x40) % 0x40, 0x80 + n % 0x40]
  else
    [0xF0 + n / 0x40000, 0x80 + (n / 0x1000) % 0x40,
      0x80 + (n / 0x40) % 0x40, 0x80 + n % 0x40]

/-- The characters the `qs` RFC 3986 encoder leaves untouched. -/
def isUnreservedQS (c : Char) : Bool :=
  c.isAlphanum || c == '-' || c == '.' || c == '_' || c == '~'

/-- Value encoding of `qs.stringify` (the source passes
`encodeValuesOnly`, so keys stay raw). -/
def qsEncodeValue (s : String) : String :=
  String.mk (s.data.flatMap (fun c =>
    if isUnreservedQS c then [c] else (utf8Bytes c).flatMap percentHex))

mutual

/-- `qs.stringify` tokens of one keyed value, for the default
`strictNullHandling = false` (a `null` serialises as `key=`). -/
def qsTokens (fmt : QueryStringArrayFormat) (key : String) :
    PVal → List String
  | .str s => [key ++ "=" ++ qsEncodeValue s]
  | .num n => [key ++ "=" ++ qsEncodeValue (toString n)]
  | .bool b => [key ++ "=" ++ (if b then "true" else "false")]
  | .null => [key ++ "="]
  | .date s => [key ++ "=" ++ qsEncodeValue s]
  | .arr vs => qsTokensArr fmt key 0 vs
  | .obj ps => qsTokensObj fmt key ps
  | .blob => []
  | .file _ => []
  | .fileList _ => []

def qsTokensArr (fmt : QueryStringArrayFormat) (key : String) :
    Nat → List PVal → List String
  | _, [] => []
  | i, v :: rest =>
    qsTokens fmt
        (match fmt with
          | .indices => key ++ "[" ++ toString i ++ "]"
          | .brackets => key ++ "[]") v
      ++ qsTokensArr fmt key (i + 1) rest

def qsTokensObj (fmt : QueryStringArrayFormat) (key : String) :
    List (String × PVal) → List String
  | [] => []
  | (k, v) :: rest =>
    qsTokens fmt (key ++ "[" ++ k ++ "]") v ++ qsTokensObj fmt key rest

end

def qsTopTokens (fmt : QueryStringArrayFormat) :
    List (String × PVal) → List String
  | [] => []
  | (k, v) :: rest => qsTokens fmt k v ++ qsTopTokens fmt rest

def joinAmp : List String → String
  | [] => ""
  | [t] => t
  | t :: rest => t ++ "&" ++ joinAmp rest

def stringifyQS (m : List (String × PVal)) (fmt : QueryStringArrayFormat) :
    String :=
  joinAmp (qsTopTokens fmt m)

/-- The `url.search` setter: a non-empty value gains a leading `?`. -/
def setSearch (s : String) : String :=
  if s.data.isEmpty then "" else "?" ++ s

structure MergedQS where
  href : String
  data : List (String × PVal)
  method : RouteMethod

/-- Embeds `mergeDataIntoQueryString` (`utilities.ts` lines 115-158). -/
def mergeDataIntoQueryString (method : RouteMethod) (href : String)
    (data : List (String × PVal))
    (fmt : QueryStringArrayFormat := .indices) : MergedQS :=
  let hasHost := strStarts href "http://" || strStarts href "https://"
  let hasAbsolutePath := hasHost || strStarts href "/"
  let hasRelativePath :=
    !hasAbsolutePath && !strStarts href "#" && !strStarts href "?"
  let hasSearch := strHas href '?' || (method == .GET && !data.isEmpty)
  let hasHash := strHas href '#'
  let url := parseURL href
  let merged :=
    if method == .GET && !data.isEmpty then
      ({ url with
          search := setSearch
            (stringifyQS (lodashMergeObj (parseQS url.search) data) fmt) },
        ([] : List (String × PVal)))
    else (url, data)
  { href :=
      (if hasHost then merged.1.protocol ++ "//" ++ merged.1.host else "")
        ++ (if hasAbsolutePath then merged.1.pathname else "")
        ++ (if hasRelativePath then String.mk merged.1.pathname.data.tail
            else "")
        ++ (if hasSearch then merged.1.search else "")
        ++ (if hasHash then merged.1.hash else "")
    data := merged.2
    method := method }

/-! ## Routable resolution (request data portion)

Embeds the data-handling tail of `Router.resolveRoutable` (router source,
lines 1134-1159): data holding file-like values (or forced) is converted
to `FormData`; `FormData` then receives a `_method` field and the method
becomes `POST`; otherwise the data is merged into the query string and
its keys are run through the client property-key transform.
-/

inductive VisitDataV where
  | record : List (String × PVal) → VisitDataV
  | formData : List (String × FormEntry) → VisitDataV

def hasFilesFormEntries : List (String × FormEntry) → Bool
  | [] => false
  | (_, e) :: rest =>
    (match e with
      | .fileE _ => true
      | .blobE => true
      | .str _ => false) || hasFilesFormEntries rest

structure ResolvedData where
  method : RouteMethod
  href : String
  data : VisitDataV

def resolveRoutableData (method : RouteMethod) (href : String)
    (data : VisitDataV) (forceFormData : Bool)
    (fmt : QueryStringArrayFormat) (clientTransform : String → String) :
    ResolvedData :=
  let finalData := match data with
    | .record ps =>
      if hasFilesEntries ps || forceFormData then
        VisitDataV.formData (objectToFormData ps)
      else data
    | .formData _ => data
  match finalData with
  | .formData f =>
    { method := .POST
      href := href
      data := .formData (f ++ [("_method", .str (methodName method))]) }
  | .record ps =>
    let merged := mergeDataIntoQueryString method href ps fmt
    { method := merged.method
      href := merged.href
      data := .record (transformPropertyKeys clientTransform merged.data) }

/-! ## Fragment merge engine

Embeds `mergeFragments` (`utilities.ts` lines 160-278).  A fragment keeps
the fields the merge reads: the component id, the properties, the lazily
attached back-reference page (its location href and its visit), and the
`fallback` marker.  A fragments map sends a region name to `undefined`
(key present with no value), `null` (explicit clear) or a list of
fragment-or-null entries; a name absent from the association list is an
absent key.
-/

structure FragPage where
  href : String
  visit : Option Nat
deriving DecidableEq

structure Fragment where
  componentId : String
  properties : List (String × PVal)
  page : Option FragPage
  fallback : Bool

inductive FragValue where
  | undef : FragValue
  | null : FragValue
  | list : List (Option Fragment) → FragValue

def Fragments : Type := List (String × FragValue)

/-- A per-region option value: a plain value or a function of the merge
context `{name, currentFragments, nextFragments}` (a function returning
`undefined` falls back to the default). -/
inductive FragOption where
  | val : Bool → FragOption
  | func : (String → Fragments → Fragments → Option Bool) → FragOption

structure FragOpts where
  stacked : Option FragOption
  modal : Option FragOption
  inert : Option FragOption
  lazy : Option FragOption

def noOpts : FragOpts := ⟨none, none, none, none⟩

def optsFor (options : List (String × FragOpts)) (name : String) : FragOpts :=
  (alistLookup options name).getD noOpts

/-- `resolveOption` inside `mergeFragments`: an undefined option yields
the default, a function is applied to the context of the region currently
being merged. -/
def resolveFragOption (name : String) (cur next : Fragments)
    (opt : Option FragOption) (dflt : Bool) : Bool :=
  match opt with
  | none => dflt
  | some (.val b) => b
  | some (.func f) => (f name cur next).getD dflt

/-- `lodash.castarray(nextFragments)[0]`: `none` models an `undefined`
next fragment, `some none` a `null` one, `some (some f)` a real one. -/
def castArrayHead : Option FragValue → Option (Option Fragment)
  | none => none
  | some .undef => none
  | some .null => some none
  | some (.list []) => none
  | some (.list (x :: _)) => some x

/-- `fragment?.page?.location.href`. -/
def fragLocation (f : Option Fragment) : Option String :=
  (f.bind Fragment.page).map FragPage.href

def fragKeys (f : Fragments) : List String := f.map (fun kv => kv.1)

/-- `lodash.uniq`, keeping the first occurrence of each element; `seen`
accumulates the elements already kept. -/
def uniqGo (seen : List String) : List String → List String
  | [] => []
  | x :: xs =>
    if x ∈ seen then uniqGo seen xs else x :: uniqGo (x :: seen) xs

def uniqStr (l : List String) : List String := uniqGo [] l

/-- The reading of a fragments-map slot the way the JavaScript branches
see it: an absent key and a key holding `undefined` read alike. -/
inductive CumVal where
  | undef : CumVal
  | null : CumVal
  | list : List (Option Fragment) → CumVal

def readFV : Option FragValue → CumVal
  | none => .undef
  | some .undef => .undef
  | some .null => .null
  | some (.list l) => .list l

/-- The `for (const currentFragment of cumulatedFragments)` loop of
`mergeFragments` for a truthy next fragment over a truthy (array) slot.
The source pushes the next fragment for every non-matching entry and the
iterator of the mutated array then reaches the pushed copy, which always
matches itself, so `arr.length + 1` steps of fuel always suffice; on a
match the source splices the rest of the array away and stops. -/
def mergeFragmentLoop (stacked lazy : Bool) (next : Fragment) :
    List (Option Fragment) → Nat → Nat → List (Option Fragment)
  | arr, _, 0 => arr
  | arr, idx, fuel + 1 =>
    match arr.get? idx with
    | none => arr
    | some current =>
      let currentLocation := fragLocation current
      let nextLocation := fragLocation (some next)
      if (next.fallback && current.isSome) || !stacked
          || (stacked && currentLocation == nextLocation) then
        let props := objSpread
          (match current with
            | some c => c.properties
            | none => []) next.properties
        let reuse :=
          (lazy && (current.map Fragment.componentId == some next.componentId))
            || currentLocation == nextLocation
        let page :=
          if reuse then
            next.page.map (fun pg =>
              { pg with visit := (current.bind Fragment.page).bind FragPage.visit })
          else next.page
        arr.take idx ++ [some { next with properties := props, page := page }]
      else
        mergeFragmentLoop stacked lazy next (arr ++ [some next]) (idx + 1) fuel

/-- The new slot value one `reduce` step computes for one region name,
as a function of the accumulated slot `cumulated` it read. -/
def mergeFragmentResult (options : List (String × FragOpts))
    (allCurrent allNext : Fragments) (name : String)
    (cumulated : Option FragValue) : CumVal :=
  let nf := castArrayHead (alistLookup allNext name)
  let opts := optsFor options name
  let res := fun opt dflt => resolveFragOption name allCurrent allNext opt dflt
  let stacked := res opts.stacked (res opts.modal false)
  let inert := res opts.inert
    ((fragKeys allNext).any (fun n2 => res (optsFor options n2).modal false))
  let lazy := res opts.lazy true
  match nf with
  | some (some f) =>
    match readFV cumulated with
    | .list arr =>
      .list (mergeFragmentLoop stacked lazy f arr 0 (arr.length + 1))
    | .null => if f.fallback then .null else .list [some f]
    | .undef => .list [some f]
  | some none => .null
  | none => if !inert then .null else readFV cumulated

/-- One step of the `reduce` in `mergeFragments`, for one region name: an
`undefined` result leaves the accumulator untouched, anything else is an
explicit present value. -/
def mergeFragmentStep (options : List (String × FragOpts))
    (allCurrent allNext : Fragments) (acc : Fragments) (name : String) :
    Fragments :=
  match mergeFragmentResult options allCurrent allNext name
      (alistLookup acc name) with
  | .undef => acc
  | .null => alistSet acc name FragValue.null
  | .list l => alistSet acc name (FragValue.list l)

/-- Embeds `mergeFragments`: the union of the region names of both sides
(first occurrences first), reduced over the current fragments map. -/
def mergeFragments (allCurrent allNext : Fragments)
    (options : List (String × FragOpts)) : Fragments :=
  (uniqStr (fragKeys allCurrent ++ fragKeys allNext)).foldl
    (mergeFragmentStep options allCurrent allNext) allCurrent

/-! ## History commit (push / replace / pop)

Embeds the page-stack effect of `Router.setPage` (router source, lines
754-824) together with `pushState` / `replaceState` (lines 865-887), for
a browser context.  A stack slot holds the page fields the commit logic
reads (its location href and the id of the visit embedded in it); slots
are optional because a JavaScript array assignment past the end leaves
holes.  `windowHref` is `window.location.href`, which the two history
primitives keep in sync with the committed page.
-/

structure PageL where
  href : String
  visitId : Nat
deriving DecidableEq

structure HistState where
  internalPages : List (Option PageL)
  pageIndex : Nat
  windowHref : String
deriving DecidableEq

/-- A JavaScript `array.length = n` assignment: truncates, or extends
with holes. -/
def jsSetLength (l : List (Option PageL)) (n : Nat) : List (Option PageL) :=
  if n ≤ l.length then l.take n else l ++ List.replicate (n - l.length) none

/-- A JavaScript `array[i] = v` assignment: writes in place, extending
with holes when `i` is past the end. -/
def jsArraySet (l : List (Option PageL)) (i : Nat) (v : PageL) :
    List (Option PageL) :=
  (jsSetLength l (max l.length (i + 1))).set i (some v)

def currentPageL (s : HistState) : Option PageL :=
  (s.internalPages.get? s.pageIndex).join

def previousPageL (s : HistState) : Option PageL :=
  if s.pageIndex = 0 then none
  else (s.internalPages.get? (s.pageIndex - 1)).join

/-- `Router.replaceState`: overwrite the slot at the current index; the
browser URL follows the page unless `preserveURL`. -/
def histReplaceState (s : HistState) (p : PageL) (preserveURL : Bool) :
    HistState :=
  { s with
      internalPages := jsArraySet s.internalPages s.pageIndex p
      windowHref := if preserveURL then s.windowHref else p.href }

/-- `Router.pushState`: advance the index, truncate the forward entries,
store the page. -/
def histPushState (s : HistState) (p : PageL) : HistState :=
  let ni := s.pageIndex + 1
  { s with
      pageIndex := ni
      internalPages := (jsSetLength s.internalPages (ni + 1)).set ni (some p)
      windowHref := p.href }

/-- The push / replace / pop decision of `Router.setPage` (lines
808-824): replace for the first page, a requested `replace`, a requested
`preserveURL`, or a next location equal to the browser location; a pop
(overwrite of the previous slot, followed by a deferred `back()`) when
the next location equals the previous entry; otherwise push. -/
def setPageCommit (s : HistState) (p : PageL) (replace preserveURL : Bool) :
    HistState :=
  let initialVisit := (currentPageL s).isNone
  if initialVisit || replace || preserveURL || (p.href == s.windowHref) then
    histReplaceState s p preserveURL
  else
    match previousPageL s with
    | some prev =>
      if p.href == prev.href then
        { s with
            internalPages := jsArraySet s.internalPages (s.pageIndex - 1)
              { href := p.href, visitId := prev.visitId } }
      else histPushState s p
    | none => histPushState s p

/-- The outcomes of the network exchange of `Router.visit` that reach the
page stack: a recognised protocol page on success commits with the
options of the visit; a transport failure whose response is itself a
protocol page payload is applied through `this.setPage(error.response.data)`
with no options (lines 674-677); redirects and all other failures leave
the stack alone. -/
inductive VisitOutcome where
  | successPage : PageL → VisitOutcome
  | errorPage : PageL → VisitOutcome
  | redirect : VisitOutcome
  | noPage : VisitOutcome

def visitCommit (s : HistState) (replace preserveURL : Bool)
    (outcome : VisitOutcome) : HistState :=
  match outcome with
  | .successPage p => setPageCommit s p replace preserveURL
  | .errorPage p => setPageCommit s p false false
  | .redirect => s
  | .noPage => s

/-! ## Snapshot getters and clonePage

Embeds `clonePage` (`utilities.ts` lines 747-750) and the `pages`,
`page` and `previousPage` getters of the `Router` (router source, lines
67-96).  Page objects live in a heap addressed by index so that
JavaScript reference sharing is explicit: `clonePage` returns its
argument unchanged (the source returns the page itself, with a comment
that it is just a dummy), so the getters hand out internal references
except that `pages` spreads each page into a fresh object (a shallow
copy) to recompute `obsolete`.  `propsRef` stands for the reference to
the nested `properties` object, which a shallow copy shares.
-/

structure PageObj where
  href : String
  propsRef : Nat
  obsolete : Bool
deriving DecidableEq

structure RouterC1 where
  pages : List PageObj
  internalPages : List Nat
  pageIndex : Nat

/-- `clonePage` returns the very page it was given. -/
def clonePage (addr : Nat) : Nat := addr

def readPage (pages : List PageObj) (addr : Nat) : Option PageObj :=
  pages.get? addr

/-- The `page` getter: `clonePage(this.internalPages[this.pageIndex])`. -/
def pageGetter (r : RouterC1) : Option Nat :=
  (r.internalPages.get? r.pageIndex).map clonePage

/-- The `previousPage` getter:
`clonePage(this.internalPages[this.pageIndex - 1])`. -/
def previousPageGetter (r : RouterC1) : Option Nat :=
  if r.pageIndex = 0 then none
  else (r.internalPages.get? (r.pageIndex - 1)).map clonePage

def listUpdate {α : Type} : List α → Nat → (α → α) → List α
  | [], _, _ => []
  | x :: xs, 0, f => f x :: xs
  | x :: xs, i + 1, f => x :: listUpdate xs i f

/-- An external top-level mutation of the page object at `addr`. -/
def writePageHref (pages : List PageObj) (addr : Nat) (v : String) :
    List PageObj :=
  listUpdate pages addr (fun p => { p with href := v })

/-- The fresh objects allocated by the `pages` getter:
`{...clonePage(page), obsolete: index > this.pageIndex}` for each entry. -/
def snapPages (pages : List PageObj) (pi : Nat) :
    List Nat → Nat → List PageObj
  | [], _ => []
  | addr :: rest, i =>
    { (readPage pages addr).getD ⟨"", 0, false⟩ with
        obsolete := decide (pi < i) } :: snapPages pages pi rest (i + 1)

/-- The `pages` getter: allocates one shallow copy per internal page and
returns the references to the copies (the heap grows by the copies). -/
def pagesGetter (r : RouterC1) : List PageObj × List Nat :=
  (r.pages ++ snapPages r.pages r.pageIndex r.internalPages 0,
    (List.range r.internalPages.length).map (fun i => r.pages.length + i))

/-- The values of the pages the router owns, read through the heap. -/
def internalPageVals (pages : List PageObj) (r : RouterC1) :
    List (Option PageObj) :=
  r.internalPages.map (readPage pages)

/-- Well-formedness: the internal references point into the heap and the
current index points into the internal list. -/
def C1WF (r : RouterC1) : Prop :=
  (∀ a ∈ r.internalPages, a < r.pages.length)
    ∧ r.pageIndex < r.internalPages.length

/-! ## Concrete instances used by counterexamples and witnesses -/

/-- A fragments configuration where region `R` is `stacked: true` and
nothing else is configured. -/
def stackedOnlyOpts (R : String) : List (String × FragOpts) :=
  [(R, { noOpts with stacked := some (.val true) })]

/-- A plain content fragment with the given component id and location,
used to instantiate stacked-region scenarios. -/
def c3Frag (cid h : String) : Fragment :=
  { componentId := cid
    properties := []
    page := some { href := h, visit := some 0 }
    fallback := false }

/-- A plain content fragment occupying the `main` region. -/
def mainFragC : Fragment :=
  { componentId := "main-component"
    properties := []
    page := some { href := "http://localhost/home", visit := some 1 }
    fallback := false }

/-- An incoming fragment for the `modal` region. -/
def modalFragC : Fragment :=
  { componentId := "modal-component"
    properties := []
    page := some { href := "http://localhost/modal", visit := some 2 }
    fallback := false }

def c2Current : Fragments := [("main", .list [some mainFragC])]

def c2Next : Fragments := [("modal", .list [some modalFragC])]

/-- The `modal` region configured with `stacked: true` (the configuration
the claim describes). -/
def c2OptsStacked : List (String × FragOpts) :=
  [("modal", { noOpts with stacked := some (.val true) })]

/-- The `modal` region configured with `modal: true` (the configuration
that actually makes other regions inert by default). -/
def c2OptsModal : List (String × FragOpts) :=
  [("modal", { noOpts with modal := some (.val true) })]

/-- A router owning one page object at heap address 0. -/
def c1Router : RouterC1 :=
  { pages := [⟨"http://x/home", 0, false⟩]
    internalPages := [0]
    pageIndex := 0 }

/-- A router holding one committed page at `http://x/a`, with the browser
location in sync. -/
def c5State : HistState :=
  { internalPages := [some ⟨"http://x/a", 1⟩]
    pageIndex := 0
    windowHref := "http://x/a" }

/-! ## Theorems -/

mutual

theorem keyRuleValue_holds (t : String → String) :
    ∀ v : PVal, KeyRuleValue t v (transformKeysValue t v)
  | .obj ps =>
    KeyRuleValue.obj ps (transformPropertyKeys t ps) (keyRuleEntries_holds t ps)
  | .str s => KeyRuleValue.scalar (.str s) (fun _ h => PVal.noConfusion h)
  | .num n => KeyRuleValue.scalar (.num n) (fun _ h => PVal.noConfusion h)
  | .bool b => KeyRuleValue.scalar (.bool b) (fun _ h => PVal.noConfusion h)
  | .null => KeyRuleValue.scalar .null (fun _ h => PVal.noConfusion h)
  | .arr vs => KeyRuleValue.scalar (.arr vs) (fun _ h => PVal.noConfusion h)
  | .blob => KeyRuleValue.scalar .blob (fun _ h => PVal.noConfusion h)
  | .file n => KeyRuleValue.scalar (.file n) (fun _ h => PVal.noConfusion h)
  | .fileList n => KeyRuleValue.scalar (.fileList n) (fun _ h => PVal.noConfusion h)
  | .date d => KeyRuleValue.scalar (.date d) (fun _ h => PVal.noConfusion h)

theorem keyRuleEntries_holds (t : String → String) :
    ∀ ps : List (String × PVal),
      KeyRuleEntries t ps (transformPropertyKeys t ps)
  | [] => KeyRuleEntries.nil
  | (k, v) :: rest => by
    rw [transformPropertyKeys]
    cases hk : strStarts k "__" with
    | true =>
      simpa [hk] using
        KeyRuleEntries.keep k v (transformKeysValue t v) rest
          (transformPropertyKeys t rest) hk (keyRuleValue_holds t v)
          (keyRuleEntries_holds t rest)
    | false =>
      simpa [hk] using
        KeyRuleEntries.xform k v (transformKeysValue t v) rest
          (transformPropertyKeys t rest) hk (keyRuleValue_holds t v)
          (keyRuleEntries_holds t rest)

end

/-- Claim C10: for every properties object and transform function,
`transformPropertyKeys` keeps every key starting with `__` (at any
nesting depth) verbatim while transforming every other key, and the
object values of `__`-prefixed keys still get their own inner keys
transformed recursively under the same rule. -/
theorem c10_double_underscore_keys_exempt (t : String → String)
    (ps : List (String × PVal)) :
    KeyRuleEntries t ps (transformPropertyKeys t ps) :=
  keyRuleEntries_holds t ps

/-- Claim C6: a GET visit to an href that already carries a query string
has its request data merged into the existing query string: with
`/users?page=2` and `{sort: 'name'}` the merged location is
`/users?page=2&sort=name`, the data is emptied and the method stays GET. -/
theorem c6_get_merges_into_existing_query :
    mergeDataIntoQueryString .GET "/users?page=2" [("sort", .str "name")]
        .indices
      = { href := "/users?page=2&sort=name", data := [], method := .GET } := by
  rfl

/-- Claim C7: a POST visit whose data holds a file-like value anywhere in
its structure is converted to multipart form data, a `_method=POST` field
is appended, and the transport method stays POST. -/
theorem c7_files_force_formdata_with_method_field (href : String)
    (ps : List (String × PVal)) (force : Bool)
    (fmt : QueryStringArrayFormat) (ct : String → String)
    (h : hasFilesEntries ps = true) :
    resolveRoutableData .POST href (.record ps) force fmt ct
      = { method := .POST
          href := href
          data := .formData
            (objectToFormData ps ++ [("_method", .str "POST")]) } := by
  unfold resolveRoutableData
  simp [h, methodName]

/-- Witness for C7 at a concrete data record containing a `Blob`. -/
theorem c7_witness :
    hasFilesEntries [("file", PVal.blob)] = true ∧
      resolveRoutableData .POST "/form" (.record [("file", PVal.blob)]) false
          .indices (fun k => k)
        = { method := .POST
            href := "/form"
            data := .formData
              (objectToFormData [("file", PVal.blob)]
                ++ [("_method", .str "POST")]) } :=
  ⟨rfl, c7_files_force_formdata_with_method_field "/form" [("file", PVal.blob)]
    false .indices (fun k => k) rfl⟩

/-- Claim C8: `cancelVisit(id, interrupt)` leaves the visit untouched and
emits nothing unless `id` is the active visit and it is neither completed
nor cancelled; when it acts it invokes the cancellation token, sets
`cancelled` and sets `interrupted` to the argument, and emits `cancel`
followed by `finish`. -/
theorem c8_cancel_visit_contract (active : VisitR) (visitId : Nat)
    (intr : Bool) :
    ((active.id ≠ visitId ∨ active.completed = true ∨ active.cancelled = true) →
      cancelVisit active visitId intr = (active, [])) ∧
    (active.id = visitId → active.completed = false →
      active.cancelled = false →
      (cancelVisit active visitId intr).1.cancelled = true ∧
      (cancelVisit active visitId intr).1.interrupted = intr ∧
      (active.hasCancelToken = true →
        (cancelVisit active visitId intr).1.tokenCancelled = true) ∧
      (cancelVisit active visitId intr).2 = ["cancel", "finish"]) := by
  constructor
  · rintro (h | h | h) <;> simp [cancelVisit, h]
  · intro h1 h2 h3
    simp [cancelVisit, h1, h2, h3]
    exact fun h => Or.inr h

/-- Witness for C8 at a concrete acting cancellation. -/
theorem c8_witness :
    (cancelVisit ⟨5, false, false, false, false, true, false⟩ 5 true).1.cancelled
        = true ∧
      (cancelVisit ⟨5, false, false, false, false, true, false⟩ 5 true).2
        = ["cancel", "finish"] :=
  have h := c8_cancel_visit_contract ⟨5, false, false, false, false, true, false⟩
    5 true
  ⟨(h.2 rfl rfl rfl).1, (h.2 rfl rfl rfl).2.2.2⟩

/-- Claim C4: when a pending (neither completed nor cancelled)
non-background visit A is active and a new non-background visit B passes
its `before` guard, A ends cancelled and interrupted, and this flag
transition happens strictly before the `start` event of B in the
synchronous execution order. -/
theorem c4_interrupt_before_start (s : RouterVisitState) (b : VisitR)
    (hA1 : s.activeVisit.completed = false)
    (hA2 : s.activeVisit.cancelled = false) (hB : b.background = false) :
    ∃ a, (visitStart s b true).2.1 = some a ∧ a.cancelled = true ∧
      a.interrupted = true ∧
      ∃ i j, i < j ∧
        (visitStart s b true).2.2.get? i
          = some (.flagsSet a.id true true) ∧
        (visitStart s b true).2.2.get? j = some (.evStart b.id) := by
  refine ⟨(cancelVisit s.activeVisit s.activeVisit.id true).1, ?_, ?_, ?_, 1, 2,
    Nat.one_lt_two, ?_, ?_⟩ <;>
    simp [visitStart, cancelVisit, hA1, hA2, hB]

/-- Witness for C4 at a concrete pending visit pair. -/
theorem c4_witness :
    ∃ a, (visitStart ⟨⟨1, false, false, false, false, true, false⟩⟩
        ⟨2, false, false, false, false, false, false⟩ true).2.1 = some a ∧
      a.cancelled = true ∧ a.interrupted = true ∧
      ∃ i j, i < j ∧
        (visitStart ⟨⟨1, false, false, false, false, true, false⟩⟩
            ⟨2, false, false, false, false, false, false⟩ true).2.2.get? i
          = some (.flagsSet a.id true true) ∧
        (visitStart ⟨⟨1, false, false, false, false, true, false⟩⟩
            ⟨2, false, false, false, false, false, false⟩ true).2.2.get? j
          = some (.evStart 2) :=
  c4_interrupt_before_start ⟨⟨1, false, false, false, false, true, false⟩⟩
    ⟨2, false, false, false, false, false, false⟩ rfl rfl rfl

/-- Claim C5 counterexample: a visit with `replace: true` to the current
location whose transport fails with a recognised protocol page payload
for a different location grows the page stack from 1 to 2 entries,
because the error payload is applied through `setPage` with no options
and is pushed; the claim asserts the length never changes. -/
theorem c5_counterexample :
    c5State.internalPages.length = 1 ∧
      (currentPageL c5State).map PageL.href = some "http://x/a" ∧
      (visitCommit c5State true false
          (.errorPage ⟨"http://x/b", 2⟩)).internalPages.length = 2 := by
  refine ⟨rfl, rfl, ?_⟩
  rfl

/-- Claim C5 as amended: a visit with `replace: true` to the current
location whose response is a recognised protocol success page never
changes the length of the page stack (the current entry is replaced in
place); the error-payload path can push instead, as the counterexample
shows. -/
theorem c5_amended_replace_keeps_length (s : HistState) (p : PageL)
    (pu : Bool) (cur : PageL)
    (hwf : s.pageIndex < s.internalPages.length)
    (_hcur : currentPageL s = some cur) (_hloc : p.href = cur.href) :
    (visitCommit s true pu (.successPage p)).internalPages.length
      = s.internalPages.length := by
  have hmax : max s.internalPages.length (s.pageIndex + 1)
      = s.internalPages.length :=
    Nat.max_eq_left hwf
  simp [visitCommit, setPageCommit, histReplaceState, jsArraySet, jsSetLength,
    hmax]

/-- Witness for the amended C5 at a concrete replace visit. -/
theorem c5_amended_witness :
    (visitCommit c5State true false
        (.successPage ⟨"http://x/a", 2⟩)).internalPages.length
      = c5State.internalPages.length :=
  c5_amended_replace_keeps_length c5State ⟨"http://x/a", 2⟩ false
    ⟨"http://x/a", 1⟩ (by decide) rfl rfl

theorem emitGo_trace_take (c : Bool) :
    ∀ (L : List ListenerB) (p : Bool), ∃ k, (emitGo c p L).2 = L.take k
  | [], _ => ⟨0, rfl⟩
  | l :: rest, p => by
    rw [emitGo]
    by_cases h1 : l.result ≠ 0
    · exact ⟨1, by simp [h1]⟩
    · by_cases h2 : (c && (p || (c && l.prevents))) = true
      · exact ⟨1, by simp [h1, h2]⟩
      · obtain ⟨k, hk⟩ := emitGo_trace_take c rest (p || (c && l.prevents))
        exact ⟨k + 1, by simp [h1, h2, hk]⟩

theorem emitNoStop_tail (c : Bool) (x : ListenerB) (rest : List ListenerB)
    (j : Nat) (h : emitNoStop c (x :: rest) (j + 1)) : emitNoStop c rest j := by
  refine ⟨fun w hw => h.1 w hw, fun hc => ?_⟩
  have := h.2 hc
  simp only [List.take_succ_cons, List.any_cons] at this
  exact (Bool.or_eq_false_iff.mp this).2

theorem emitNoStop_head_result (c : Bool) (x : ListenerB)
    (rest : List ListenerB) (h : emitNoStop c (x :: rest) 0) :
    x.result = 0 :=
  h.1 x rfl

theorem emitNoStop_head_prevents (c : Bool) (x : ListenerB)
    (rest : List ListenerB) (h : emitNoStop c (x :: rest) 0) :
    (c && x.prevents) = false := by
  cases hc : c with
  | false => simp
  | true =>
    have h2 := h.2 hc
    simp only [List.take_succ_cons, List.take_zero, List.any_cons,
      List.any_nil, Bool.or_false] at h2
    simp [h2]

theorem emitGo_first_truthy (c : Bool) :
    ∀ (i : Nat) (L : List ListenerB) (l : ListenerB), L.get? i = some l →
      l.result ≠ 0 → (∀ j, j < i → emitNoStop c L j) →
      emitGo c false L = (.value (l.result - 1), L.take (i + 1))
  | 0, L, l, hget, hres, _ => by
    cases L with
    | nil => simp at hget
    | cons x rest =>
      simp only [List.get?] at hget
      cases hget
      rw [emitGo]
      simp [hres]
  | i + 1, L, l, hget, hres, hns => by
    cases L with
    | nil => simp at hget
    | cons x rest =>
      have hx := hns 0 (Nat.succ_pos i)
      have hxres := emitNoStop_head_result c x rest hx
      have hxprev := emitNoStop_head_prevents c x rest hx
      have hrec := emitGo_first_truthy c i rest l hget hres
        (fun j hj => emitNoStop_tail c x rest j (hns (j + 1) (Nat.succ_lt_succ hj)))
      rw [emitGo]
      simp [hxres, hxprev, hrec]

theorem emitGo_prevented (c : Bool) :
    ∀ (i : Nat) (L : List ListenerB) (l : ListenerB), L.get? i = some l →
      l.result = 0 → c = true →
      ((L.take (i + 1)).any (fun x => x.prevents)) = true →
      (∀ j, j < i → emitNoStop c L j) →
      emitGo c false L = (.prevented, L.take (i + 1))
  | 0, L, l, hget, hres, hc, hprev, _ => by
    cases L with
    | nil => simp at hget
    | cons x rest =>
      simp only [List.get?] at hget
      cases hget
      simp only [List.take_succ_cons, List.take_zero, List.any_cons,
        List.any_nil, Bool.or_false] at hprev
      rw [emitGo]
      simp [hres, hc, hprev]
  | i + 1, L, l, hget, hres, hc, hprev, hns => by
    cases L with
    | nil => simp at hget
    | cons x rest =>
      have hx := hns 0 (Nat.succ_pos i)
      have hxres := emitNoStop_head_result c x rest hx
      have hxprev : x.prevents = false := by
        have h2 := emitNoStop_head_prevents c x rest hx
        rw [hc] at h2
        simpa using h2
      have hprev' : ((rest.take (i + 1)).any (fun x => x.prevents)) = true := by
        simp only [List.take_succ_cons, List.any_cons, hxprev,
          Bool.false_or] at hprev
        exact hprev
      have hrec := emitGo_prevented c i rest l hget hres hc hprev'
        (fun j hj => emitNoStop_tail c x rest j (hns (j + 1) (Nat.succ_lt_succ hj)))
      rw [emitGo]
      simp [hxres, hxprev, hrec]

theorem emitGo_all_falsy (c : Bool) :
    ∀ L : List ListenerB, (∀ l ∈ L, l.result = 0) →
      (c = true → L.any (fun x => x.prevents) = false) →
      emitGo c false L = (.completed, L)
  | [], _, _ => rfl
  | x :: rest, hres, hprev => by
    have hxres : x.result = 0 := hres x (List.mem_cons_self x rest)
    have hxprev : (c && x.prevents) = false := by
      cases hc : c with
      | false => simp
      | true =>
        have h2 := hprev hc
        simp only [List.any_cons] at h2
        simp [(Bool.or_eq_false_iff.mp h2).1]
    have hrec := emitGo_all_falsy c rest
      (fun l hl => hres l (List.mem_cons_of_mem x hl))
      (fun hc => by
        have h2 := hprev hc
        simp only [List.any_cons] at h2
        exact (Bool.or_eq_false_iff.mp h2).2)
    rw [emitGo]
    simp [hxres, hxprev, hrec]

/-- Claim C9: an emission invokes the priority listeners first and then
the registered listeners in registration order (the invoked listeners are
always an initial segment of that sequence), returns the first truthy
listener result immediately without invoking later listeners, returns
`false` as soon as a cancelable event has had its default prevented, and
returns `true` when no listener returned a truthy value and the default
was never prevented. -/
theorem c9_emit_semantics (c : Bool) (pri reg : List ListenerB) :
    (∃ k, (emit c pri reg).2 = (pri ++ reg).take k) ∧
    (∀ i l, (pri ++ reg).get? i = some l → l.result ≠ 0 →
      (∀ j, j < i → emitNoStop c (pri ++ reg) j) →
      emit c pri reg = (.value (l.result - 1), (pri ++ reg).take (i + 1))) ∧
    (∀ i l, (pri ++ reg).get? i = some l → l.result = 0 → c = true →
      (((pri ++ reg).take (i + 1)).any (fun x => x.prevents)) = true →
      (∀ j, j < i → emitNoStop c (pri ++ reg) j) →
      emit c pri reg = (.prevented, (pri ++ reg).take (i + 1))) ∧
    ((∀ l ∈ pri ++ reg, l.result = 0) →
      (c = true → (pri ++ reg).any (fun x => x.prevents) = false) →
      emit c pri reg = (.completed, pri ++ reg)) :=
  ⟨emitGo_trace_take c (pri ++ reg) false,
    fun i l hget hres hns => emitGo_first_truthy c i (pri ++ reg) l hget hres hns,
    fun i l hget hres hc hprev hns =>
      emitGo_prevented c i (pri ++ reg) l hget hres hc hprev hns,
    fun hres hprev => emitGo_all_falsy c (pri ++ reg) hres hprev⟩

/-- Witness for C9: a falsy priority listener followed by a truthy
registered listener returns the truthy value after invoking both. -/
theorem c9_witness :
    emit true [⟨false, 0⟩] [⟨false, 3⟩]
      = (.value 2, [⟨false, 0⟩, ⟨false, 3⟩]) :=
  (c9_emit_semantics true [⟨false, 0⟩] [⟨false, 3⟩]).2.1 1 ⟨false, 3⟩ rfl
    (by decide)
    (fun j hj => by
      have hj0 : j = 0 := Nat.lt_one_iff.mp hj
      subst hj0
      exact ⟨fun l hl => by cases hl; rfl, fun _ => rfl⟩)

theorem alistLookup_alistSet_self {α : Type} (l : List (String × α))
    (k : String) (v : α) : alistLookup (alistSet l k v) k = some v := by
  induction l with
  | nil => simp [alistSet, alistLookup]
  | cons kv rest ih =>
    obtain ⟨k2, w⟩ := kv
    by_cases h : (k2 == k) = true
    · simp [alistSet, alistLookup, h]
    · simp [alistSet, alistLookup, h, ih]

theorem alistLookup_alistSet_ne {α : Type} (l : List (String × α))
    (k k2 : String) (v : α) (h : k ≠ k2) :
    alistLookup (alistSet l k v) k2 = alistLookup l k2 := by
  induction l with
  | nil => simp [alistSet, alistLookup, h]
  | cons kv rest ih =>
    obtain ⟨k3, w⟩ := kv
    by_cases h3 : (k3 == k) = true
    · have : k3 = k := by simpa using h3
      subst this
      simp [alistSet, alistLookup, h3, h]
    · simp [alistSet, alistLookup, h3, ih]

theorem step_preserves_other (o : List (String × FragOpts))
    (cur next acc : Fragments) (n name : String) (h : n ≠ name) :
    alistLookup (mergeFragmentStep o cur next acc n) name
      = alistLookup acc name := by
  unfold mergeFragmentStep
  cases hr : mergeFragmentResult o cur next n (alistLookup acc n) with
  | undef => rfl
  | null => exact alistLookup_alistSet_ne acc n name _ h
  | list l => exact alistLookup_alistSet_ne acc n name _ h

theorem step_own_lookup (o : List (String × FragOpts))
    (cur next acc : Fragments) (name : String) :
    alistLookup (mergeFragmentStep o cur next acc name) name
      = match mergeFragmentResult o cur next name (alistLookup acc name) with
        | .undef => alistLookup acc name
        | .null => some FragValue.null
        | .list l => some (FragValue.list l) := by
  unfold mergeFragmentStep
  cases hr : mergeFragmentResult o cur next name (alistLookup acc name) with
  | undef => rfl
  | null => exact alistLookup_alistSet_self acc name _
  | list l => exact alistLookup_alistSet_self acc name _

theorem fold_preserves_absent (o : List (String × FragOpts))
    (cur next : Fragments) :
    ∀ (names : List String) (acc : Fragments) (name : String),
      name ∉ names →
      alistLookup (names.foldl (mergeFragmentStep o cur next) acc) name
        = alistLookup acc name
  | [], _, _, _ => rfl
  | n :: rest, acc, name, h => by
    rw [List.foldl_cons]
    have hne : n ≠ name := fun e => h (e ▸ List.mem_cons_self n rest)
    rw [fold_preserves_absent o cur next rest _ name
      (fun hm => h (List.mem_cons_of_mem n hm))]
    exact step_preserves_other o cur next acc n name hne

theorem fold_lookup_mem (o : List (String × FragOpts))
    (cur next : Fragments) :
    ∀ (names : List String) (acc : Fragments) (name : String),
      names.Nodup → name ∈ names →
      alistLookup (names.foldl (mergeFragmentStep o cur next) acc) name
        = match mergeFragmentResult o cur next name (alistLookup acc name) with
          | .undef => alistLookup acc name
          | .null => some FragValue.null
          | .list l => some (FragValue.list l)
  | [], _, _, _, hm => absurd hm (List.not_mem_nil _)
  | n :: rest, acc, name, hnd, hm => by
    rw [List.foldl_cons]
    by_cases he : n = name
    · subst he
      have hnotin : n ∉ rest := (List.nodup_cons.mp hnd).1
      rw [fold_preserves_absent o cur next rest _ n hnotin]
      exact step_own_lookup o cur next acc n
    · rcases List.mem_cons.mp hm with h | h
      · exact absurd h.symm he
      · rw [fold_lookup_mem o cur next rest _ name
          (List.nodup_cons.mp hnd).2 h]
        rw [step_preserves_other o cur next acc n name he]

theorem mem_uniqGo :
    ∀ (l seen : List String) (a : String),
      a ∈ uniqGo seen l ↔ (a ∈ l ∧ a ∉ seen)
  | [], seen, a => by simp [uniqGo]
  | x :: xs, seen, a => by
    rw [uniqGo]
    by_cases hx : x ∈ seen
    · rw [if_pos hx, mem_uniqGo xs seen a]
      constructor
      · rintro ⟨h1, h2⟩
        exact ⟨List.mem_cons_of_mem x h1, h2⟩
      · rintro ⟨h1, h2⟩
        rcases List.mem_cons.mp h1 with rfl | h1
        · exact absurd hx h2
        · exact ⟨h1, h2⟩
    · rw [if_neg hx]
      rw [List.mem_cons, mem_uniqGo xs (x :: seen) a]
      constructor
      · rintro (rfl | ⟨h1, h2⟩)
        · exact ⟨List.mem_cons_self a xs, hx⟩
        · exact ⟨List.mem_cons_of_mem x h1,
            fun hs => h2 (List.mem_cons_of_mem x hs)⟩
      · rintro ⟨h1, h2⟩
        rcases List.mem_cons.mp h1 with rfl | h1
        · exact Or.inl rfl
        · by_cases he : a = x
          · exact Or.inl he
          · refine Or.inr ⟨h1, ?_⟩
            intro hs
            rcases List.mem_cons.mp hs with h | h
            · exact he h
            · exact h2 h

theorem uniqGo_nodup : ∀ (l seen : List String), (uniqGo seen l).Nodup
  | [], _ => by simp [uniqGo]
  | x :: xs, seen => by
    rw [uniqGo]
    by_cases hx : x ∈ seen
    · rw [if_pos hx]
      exact uniqGo_nodup xs seen
    · rw [if_neg hx]
      refine List.nodup_cons.mpr ⟨?_, uniqGo_nodup xs (x :: seen)⟩
      intro hmem
      exact ((mem_uniqGo xs (x :: seen) x).mp hmem).2 (List.mem_cons_self x seen)

theorem mem_uniqStr (l : List String) (a : String) :
    a ∈ uniqStr l ↔ a ∈ l := by
  rw [uniqStr, mem_uniqGo]
  simp

theorem uniqStr_nodup (l : List String) : (uniqStr l).Nodup :=
  uniqGo_nodup l []

/-- Claim C2 counterexample: with region `main` populated and region
`modal` configured `stacked: true`, an incoming fragments map containing
only a `modal` fragment clears `main` (its slot becomes `null`), because
the default of `inert` scans the `modal` option of the incoming regions,
not their resolved `stacked` value; the claim asserts `main` stays
unchanged. -/
theorem c2_counterexample :
    alistLookup c2Current "main" = some (FragValue.list [some mainFragC]) ∧
      alistLookup (mergeFragments c2Current c2Next c2OptsStacked) "main"
        = some FragValue.null := by
  exact ⟨rfl, rfl⟩

/-- Claim C2 as amended: for a region name with no incoming fragment, the
existing fragments are preserved exactly when `inert` resolves to true
and the slot becomes `null` otherwise; when the `inert` option is not
given it defaults to true if and only if some incoming region (the scan
includes the region itself) resolves its `modal` option to true — the
`modal` option, not the resolved `stacked` value, which merely defaults
to `modal`.  In particular the claimed scenario holds when `modal` is
configured `modal: true`. -/
theorem c2_amended_inert_scans_modal_option
    (o : List (String × FragOpts)) (cur next : Fragments) (name : String)
    (hnf : castArrayHead (alistLookup next name) = none)
    (hmem : name ∈ fragKeys cur ++ fragKeys next) :
    (resolveFragOption name cur next (optsFor o name).inert
        ((fragKeys next).any
          (fun n2 => resolveFragOption name cur next (optsFor o n2).modal
            false)) = true →
      alistLookup (mergeFragments cur next o) name = alistLookup cur name) ∧
    (resolveFragOption name cur next (optsFor o name).inert
        ((fragKeys next).any
          (fun n2 => resolveFragOption name cur next (optsFor o n2).modal
            false)) = false →
      alistLookup (mergeFragments cur next o) name = some FragValue.null) := by
  have hfold := fold_lookup_mem o cur next
    (uniqStr (fragKeys cur ++ fragKeys next)) cur name
    (uniqStr_nodup _) ((mem_uniqStr _ name).mpr hmem)
  have hres : mergeFragmentResult o cur next name (alistLookup cur name)
      = if (!(resolveFragOption name cur next (optsFor o name).inert
            ((fragKeys next).any
              (fun n2 => resolveFragOption name cur next (optsFor o n2).modal
                false)))) = true
        then CumVal.null else readFV (alistLookup cur name) := by
    unfold mergeFragmentResult
    rw [hnf]
  rw [mergeFragments, hfold, hres]
  constructor
  · intro hinert
    rw [hinert]
    simp only [Bool.not_true, Bool.false_eq_true, if_false]
    cases hc : alistLookup cur name with
    | none => simp [readFV]
    | some fv => cases fv <;> simp [readFV]
  · intro hinert
    rw [hinert]
    simp [readFV]

/-- Witness for the amended C2: the claimed scenario with `modal`
configured through the `modal` option preserves `main`, for any prior
`main` slot. -/
theorem c2_amended_witness :
    alistLookup (mergeFragments c2Current c2Next c2OptsModal) "main"
      = alistLookup c2Current "main" :=
  (c2_amended_inert_scans_modal_option c2OptsModal c2Current c2Next "main"
    rfl (by decide)).1 rfl

theorem alistLookup_of_mem_nodup {α : Type} :
    ∀ (p : List (String × α)), (p.map Prod.fst).Nodup →
      ∀ k v, (k, v) ∈ p → alistLookup p k = some v
  | [], _, _, _, hm => absurd hm (List.not_mem_nil _)
  | (k0, v0) :: rest, hnd, k, v, hm => by
    rcases List.mem_cons.mp hm with h | h
    · obtain ⟨rfl, rfl⟩ := Prod.mk.injEq .. ▸ h
      injection h with h1 h2
      simp [alistLookup]
    · have hk : k0 ≠ k := by
        intro e
        subst e
        have : k0 ∈ rest.map Prod.fst :=
          List.mem_map_of_mem Prod.fst h
        exact (List.nodup_cons.mp (by simpa using hnd)).1 this
      rw [alistLookup]
      rw [if_neg (by simpa using hk)]
      exact alistLookup_of_mem_nodup rest
        (List.nodup_cons.mp (by simpa using hnd)).2 k v h

theorem map_lookup_id (q : List (String × PVal)) :
    ∀ p : List (String × PVal),
      (∀ kv, kv ∈ p → alistLookup q kv.1 = some kv.2) →
      p.map (fun kv => match alistLookup q kv.1 with
        | some v => (kv.1, v)
        | none => kv) = p
  | [], _ => rfl
  | kv :: rest, h => by
    rw [List.map_cons, h kv (List.mem_cons_self kv rest),
      map_lookup_id q rest (fun kv2 h2 => h kv2 (List.mem_cons_of_mem kv h2))]

theorem filter_lookup_isSome (q : List (String × PVal)) :
    ∀ p : List (String × PVal),
      (∀ kv, kv ∈ p → (alistLookup q kv.1).isSome = true) →
      p.filter (fun kv => (alistLookup q kv.1).isNone) = []
  | [], _ => rfl
  | kv :: rest, h => by
    have hs := h kv (List.mem_cons_self kv rest)
    have hn : (alistLookup q kv.1).isNone = false := by
      cases hh : alistLookup q kv.1 with
      | none => rw [hh] at hs; simp at hs
      | some v => simp
    simp only [List.filter_cons, hn, Bool.false_eq_true, if_false]
    exact filter_lookup_isSome q rest
      (fun kv2 h2 => h kv2 (List.mem_cons_of_mem kv h2))

theorem objSpread_self (p : List (String × PVal))
    (hnd : (p.map Prod.fst).Nodup) : objSpread p p = p := by
  unfold objSpread
  rw [map_lookup_id p p (fun kv hm => alistLookup_of_mem_nodup p hnd kv.1 kv.2 hm)]
  rw [filter_lookup_isSome p p (fun kv hm => by
    rw [alistLookup_of_mem_nodup p hnd kv.1 kv.2 hm]
    rfl)]
  exact List.append_nil p

theorem mergeFragments_stacked_base (R : String) (f : Fragment) :
    mergeFragments [] [(R, .list [some f])] (stackedOnlyOpts R)
      = [(R, FragValue.list [some f])] := by
  simp [mergeFragments, stackedOnlyOpts, fragKeys, uniqStr, uniqGo,
    mergeFragmentStep, mergeFragmentResult, alistLookup, castArrayHead,
    readFV, alistSet, optsFor, resolveFragOption, noOpts]

theorem mergeFragments_stacked_step (R : String)
    (arr : List (Option Fragment)) (f : Fragment) :
    mergeFragments [(R, FragValue.list arr)] [(R, .list [some f])]
        (stackedOnlyOpts R)
      = [(R, FragValue.list
          (mergeFragmentLoop true true f arr 0 (arr.length + 1)))] := by
  simp [mergeFragments, stackedOnlyOpts, fragKeys, uniqStr, uniqGo,
    mergeFragmentStep, mergeFragmentResult, alistLookup, castArrayHead,
    readFV, alistSet, optsFor, resolveFragOption, noOpts]

theorem mergeLoop_push_step (next cf : Fragment)
    (arr : List (Option Fragment)) (idx fuel : Nat)
    (hget : arr.get? idx = some (some cf)) (hfb : next.fallback = false)
    (hne : fragLocation (some cf) ≠ fragLocation (some next)) :
    mergeFragmentLoop true true next arr idx (fuel + 1)
      = mergeFragmentLoop true true next (arr ++ [some next]) (idx + 1)
          fuel := by
  rw [mergeFragmentLoop, hget]
  simp [hfb, beq_eq_false_iff_ne.mpr hne]

theorem mergeLoop_match_step (next cf : Fragment)
    (arr : List (Option Fragment)) (idx fuel : Nat)
    (hget : arr.get? idx = some (some cf))
    (hloc : fragLocation (some cf) = fragLocation (some next)) :
    mergeFragmentLoop true true next arr idx (fuel + 1)
      = arr.take idx ++ [some { next with
          properties := objSpread cf.properties next.properties
          page := next.page.map (fun pg =>
            { pg with visit := cf.page.bind FragPage.visit }) }] := by
  rw [mergeFragmentLoop, hget]
  simp [hloc]

theorem fragment_self_patch (f : Fragment) (pg : FragPage)
    (hp : f.page = some pg)
    (hnd : (f.properties.map Prod.fst).Nodup) :
    ({ f with
        properties := objSpread f.properties f.properties
        page := f.page.map (fun pg2 =>
          { pg2 with visit := f.page.bind FragPage.visit }) }) = f := by
  obtain ⟨cid, props, page, fb⟩ := f
  simp only at hp hnd ⊢
  subst hp
  rw [objSpread_self props hnd]
  simp [Option.bind]

/-- Claim C3: in a region configured `stacked: true` that starts empty,
merging three incoming fragments with pairwise distinct locations one
after another yields a 3-element stack in submission order, and merging a
4th fragment whose location equals the top element's location leaves a
3-element stack whose top is the 4th fragment (with the component id and
location of the 4th fragment; it inherits the replaced entry's properties
and visit as the algorithm prescribes). -/
theorem c3_stacked_growth_and_top_replace (R : String)
    (f1 f2 f3 f4 : Fragment) (pg1 pg2 pg3 pg4 : FragPage)
    (hp1 : f1.page = some pg1) (hp2 : f2.page = some pg2)
    (hp3 : f3.page = some pg3) (hp4 : f4.page = some pg4)
    (hf2 : f2.fallback = false) (hf3 : f3.fallback = false)
    (hf4 : f4.fallback = false)
    (h12 : pg1.href ≠ pg2.href) (h13 : pg1.href ≠ pg3.href)
    (h23 : pg2.href ≠ pg3.href) (h43 : pg4.href = pg3.href)
    (hnd2 : (f2.properties.map Prod.fst).Nodup)
    (hnd3 : (f3.properties.map Prod.fst).Nodup) :
    mergeFragments (mergeFragments
        (mergeFragments [] [(R, .list [some f1])] (stackedOnlyOpts R))
        [(R, .list [some f2])] (stackedOnlyOpts R))
        [(R, .list [some f3])] (stackedOnlyOpts R)
      = [(R, FragValue.list [some f1, some f2, some f3])] ∧
    ∃ g : Fragment,
      mergeFragments [(R, FragValue.list [some f1, some f2, some f3])]
          [(R, .list [some f4])] (stackedOnlyOpts R)
        = [(R, FragValue.list [some f1, some f2, some g])] ∧
      g.componentId = f4.componentId ∧
      fragLocation (some g) = fragLocation (some f4) := by
  have hl1 : fragLocation (some f1) = some pg1.href := by
    simp [fragLocation, hp1]
  have hl2 : fragLocation (some f2) = some pg2.href := by
    simp [fragLocation, hp2]
  have hl3 : fragLocation (some f3) = some pg3.href := by
    simp [fragLocation, hp3]
  have hl4 : fragLocation (some f4) = some pg4.href := by
    simp [fragLocation, hp4]
  have hne12 : fragLocation (some f1) ≠ fragLocation (some f2) := by
    rw [hl1, hl2]
    simp [h12]
  have hne13 : fragLocation (some f1) ≠ fragLocation (some f3) := by
    rw [hl1, hl3]
    simp [h13]
  have hne23 : fragLocation (some f2) ≠ fragLocation (some f3) := by
    rw [hl2, hl3]
    simp [h23]
  have hne14 : fragLocation (some f1) ≠ fragLocation (some f4) := by
    rw [hl1, hl4, h43]
    simp [h13]
  have hne24 : fragLocation (some f2) ≠ fragLocation (some f4) := by
    rw [hl2, hl4, h43]
    simp [h23]
  have hloc34 : fragLocation (some f3) = fragLocation (some f4) := by
    rw [hl3, hl4, h43]
  have l2 : mergeFragmentLoop true true f2 [some f1] 0
      (([some f1] : List (Option Fragment)).length + 1)
      = [some f1, some f2] := by
    rw [mergeLoop_push_step f2 f1 [some f1] 0 _ rfl hf2 hne12]
    show mergeFragmentLoop true true f2 [some f1, some f2] 1 (0 + 1)
      = [some f1, some f2]
    rw [mergeLoop_match_step f2 f2 [some f1, some f2] 1 0 rfl rfl]
    rw [fragment_self_patch f2 pg2 hp2 hnd2]
    rfl
  have l3 : mergeFragmentLoop true true f3 [some f1, some f2] 0
      (([some f1, some f2] : List (Option Fragment)).length + 1)
      = [some f1, some f2, some f3] := by
    rw [mergeLoop_push_step f3 f1 [some f1, some f2] 0 _ rfl hf3 hne13]
    show mergeFragmentLoop true true f3 [some f1, some f2, some f3] 1 (1 + 1)
      = [some f1, some f2, some f3]
    rw [mergeLoop_push_step f3 f2 [some f1, some f2, some f3] 1 1 rfl hf3
      hne23]
    show mergeFragmentLoop true true f3
      [some f1, some f2, some f3, some f3] 2 (0 + 1)
      = [some f1, some f2, some f3]
    rw [mergeLoop_match_step f3 f3 [some f1, some f2, some f3, some f3] 2 0
      rfl rfl]
    rw [fragment_self_patch f3 pg3 hp3 hnd3]
    rfl
  have l4 : mergeFragmentLoop true true f4 [some f1, some f2, some f3] 0
      (([some f1, some f2, some f3] : List (Option Fragment)).length + 1)
      = [some f1, some f2, some { f4 with
          properties := objSpread f3.properties f4.properties
          page := f4.page.map (fun pg =>
            { pg with visit := f3.page.bind FragPage.visit }) }] := by
    rw [mergeLoop_push_step f4 f1 [some f1, some f2, some f3] 0 _ rfl hf4
      hne14]
    show mergeFragmentLoop true true f4
      [some f1, some f2, some f3, some f4] 1 (2 + 1) = _
    rw [mergeLoop_push_step f4 f2 [some f1, some f2, some f3, some f4] 1 2
      rfl hf4 hne24]
    show mergeFragmentLoop true true f4
      [some f1, some f2, some f3, some f4, some f4] 2 (1 + 1) = _
    rw [mergeLoop_match_step f4 f3
      [some f1, some f2, some f3, some f4, some f4] 2 1 rfl hloc34]
    rfl
  constructor
  · rw [mergeFragments_stacked_base R f1]
    rw [mergeFragments_stacked_step R [some f1] f2]
    rw [l2]
    rw [mergeFragments_stacked_step R [some f1, some f2] f3]
    rw [l3]
  · refine ⟨{ f4 with
      properties := objSpread f3.properties f4.properties
      page := f4.page.map (fun pg =>
        { pg with visit := f3.page.bind FragPage.visit }) }, ?_, rfl, ?_⟩
    · rw [mergeFragments_stacked_step R [some f1, some f2, some f3] f4]
      rw [l4]
    · simp [fragLocation, hp4]

/-- Witness for C3 at four concrete fragments with locations `/a`, `/b`,
`/c`, `/c`. -/
theorem c3_witness :
    mergeFragments (mergeFragments
        (mergeFragments [] [("modal", .list [some (c3Frag "c1" "/a")])]
          (stackedOnlyOpts "modal"))
        [("modal", .list [some (c3Frag "c2" "/b")])]
        (stackedOnlyOpts "modal"))
        [("modal", .list [some (c3Frag "c3" "/c")])]
        (stackedOnlyOpts "modal")
      = [("modal", FragValue.list [some (c3Frag "c1" "/a"),
          some (c3Frag "c2" "/b"), some (c3Frag "c3" "/c")])] ∧
    ∃ g : Fragment,
      mergeFragments [("modal", FragValue.list [some (c3Frag "c1" "/a"),
            some (c3Frag "c2" "/b"), some (c3Frag "c3" "/c")])]
          [("modal", .list [some (c3Frag "c4" "/c")])]
          (stackedOnlyOpts "modal")
        = [("modal", FragValue.list [some (c3Frag "c1" "/a"),
            some (c3Frag "c2" "/b"), some g])] ∧
      g.componentId = (c3Frag "c4" "/c").componentId ∧
      fragLocation (some g) = fragLocation (some (c3Frag "c4" "/c")) :=
  c3_stacked_growth_and_top_replace "modal" (c3Frag "c1" "/a")
    (c3Frag "c2" "/b") (c3Frag "c3" "/c") (c3Frag "c4" "/c")
    ⟨"/a", some 0⟩ ⟨"/b", some 0⟩ ⟨"/c", some 0⟩ ⟨"/c", some 0⟩
    rfl rfl rfl rfl rfl rfl rfl
    (by decide) (by decide) (by decide) rfl (by decide) (by decide)

theorem listUpdate_get?_ne {α : Type} :
    ∀ (l : List α) (i j : Nat) (f : α → α), j ≠ i →
      (listUpdate l i f).get? j = l.get? j
  | [], _, _, _, _ => rfl
  | _ :: _, 0, 0, _, h => absurd rfl h
  | x :: xs, 0, j + 1, f, _ => by simp [listUpdate]
  | x :: xs, i + 1, 0, f, _ => by simp [listUpdate]
  | x :: xs, i + 1, j + 1, f, h => by
    simp only [listUpdate, List.get?_cons_succ]
    exact listUpdate_get?_ne xs i j f (fun e => h (by rw [e]))

theorem map_congr_mem {α β : Type} :
    ∀ (l : List α) (f g : α → β), (∀ x ∈ l, f x = g x) → l.map f = l.map g
  | [], _, _, _ => rfl
  | x :: xs, f, g, h => by
    rw [List.map_cons, List.map_cons, h x (List.mem_cons_self x xs),
      map_congr_mem xs f g (fun y hy => h y (List.mem_cons_of_mem x hy))]

theorem snapPages_get? (pages : List PageObj) (pi : Nat) :
    ∀ (addrs : List Nat) (i j : Nat),
      (snapPages pages pi addrs i).get? j
        = (addrs.get? j).map (fun a =>
            { (readPage pages a).getD ⟨"", 0, false⟩ with
                obsolete := decide (pi < i + j) })
  | [], _, _ => by simp [snapPages]
  | a :: rest, i, 0 => by simp [snapPages]
  | a :: rest, i, j + 1 => by
    rw [snapPages]
    simp only [List.get?_cons_succ]
    rw [snapPages_get? pages pi rest (i + 1) j]
    have he : i + 1 + j = i + (j + 1) := by omega
    rw [he]

/-- Claim C1 counterexample: `clonePage` returns the page itself, so the
`page` getter hands out the internal reference and a mutation applied to
the returned snapshot changes the page the router owns; the claim asserts
the internal pages stay unchanged under every such mutation. -/
theorem c1_counterexample :
    pageGetter c1Router = some 0 ∧
      internalPageVals c1Router.pages c1Router
        = [some ⟨"http://x/home", 0, false⟩] ∧
      internalPageVals (writePageHref c1Router.pages 0 "http://x/mutated")
          c1Router
        = [some ⟨"http://x/mutated", 0, false⟩] ∧
      (some (⟨"http://x/mutated", 0, false⟩ : PageObj)
        ≠ some (⟨"http://x/home", 0, false⟩ : PageObj)) :=
  ⟨rfl, rfl, rfl, by decide⟩

/-- Claim C1 as amended: `clonePage` is the identity, so `page` and
`previousPage` return the internal page reference itself (mutating them
mutates router state, as the counterexample shows), while `pages` returns
freshly allocated shallow copies: a top-level mutation of a returned
copy leaves every internally owned page unchanged, but the copies share
the nested properties object of the internal page they were copied
from. -/
theorem c1_snapshots_shallow_only (r : RouterC1) (hwf : C1WF r) :
    (pageGetter r = r.internalPages.get? r.pageIndex) ∧
    (previousPageGetter r = if r.pageIndex = 0 then none
      else r.internalPages.get? (r.pageIndex - 1)) ∧
    (∀ a ∈ (pagesGetter r).2, ∀ v,
      internalPageVals (writePageHref (pagesGetter r).1 a v) r
        = internalPageVals (pagesGetter r).1 r) ∧
    (∀ j a addr, (pagesGetter r).2.get? j = some a →
      r.internalPages.get? j = some addr →
      (readPage (pagesGetter r).1 a).map PageObj.propsRef
        = (readPage r.pages addr).map PageObj.propsRef) := by
  refine ⟨?_, ?_, ?_, ?_⟩
  · rw [pageGetter]
    cases h : r.internalPages.get? r.pageIndex with
    | none => rfl
    | some v => rfl
  · rw [previousPageGetter]
    by_cases h0 : r.pageIndex = 0
    · rw [if_pos h0, if_pos h0]
    · rw [if_neg h0, if_neg h0]
      cases h : r.internalPages.get? (r.pageIndex - 1) with
      | none => rfl
      | some v => rfl
  · intro a hmem v
    rcases List.mem_map.mp hmem with ⟨i, _, rfl⟩
    refine map_congr_mem r.internalPages _ _ (fun addr haddr => ?_)
    have hlt : addr < r.pages.length := hwf.1 addr haddr
    have hne : addr ≠ r.pages.length + i :=
      Nat.ne_of_lt (Nat.lt_of_lt_of_le hlt (Nat.le_add_right _ _))
    unfold readPage writePageHref
    exact listUpdate_get?_ne _ _ _ _ hne
  · intro j a addr hja hjaddr
    have hjlt : j < r.internalPages.length := by
      by_contra hge
      rw [pagesGetter] at hja
      simp only [List.get?_map] at hja
      rw [List.get?_eq_none.mpr (by simpa using Nat.le_of_not_lt hge)] at hja
      exact Option.noConfusion hja
    have ha : a = r.pages.length + j := by
      rw [pagesGetter] at hja
      simp only [List.get?_map, List.get?_range hjlt, Option.map_some'] at hja
      exact (Option.some.inj hja).symm
    subst ha
    have hmem : addr ∈ r.internalPages := List.get?_mem hjaddr
    have haddr : addr < r.pages.length := hwf.1 addr hmem
    have hpages : ∃ p, r.pages.get? addr = some p := by
      cases h : r.pages.get? addr with
      | none => exact absurd (List.get?_eq_none.mp h) (Nat.not_le_of_lt haddr)
      | some p => exact ⟨p, rfl⟩
    obtain ⟨p, hp⟩ := hpages
    rw [pagesGetter]
    simp only [readPage]
    rw [List.get?_append_right (Nat.le_add_right _ _)]
    have hsub : r.pages.length + j - r.pages.length = j := by omega
    rw [hsub, snapPages_get? r.pages r.pageIndex r.internalPages 0 j, hjaddr]
    have hp2 : r.pages[addr]? = some p := by
      rw [← List.get?_eq_getElem?]
      exact hp
    simp [readPage, hp2]

/-- Witness for the amended C1 at the concrete one-page router: the
`page` getter aliases the internal slot, a top-level mutation through the
`pages` snapshot leaves the internal pages unchanged, and the snapshot
shares the internal page's properties reference. -/
theorem c1_amended_witness :
    pageGetter c1Router = c1Router.internalPages.get? c1Router.pageIndex ∧
      internalPageVals
          (writePageHref (pagesGetter c1Router).1 1 "http://x/other")
          c1Router
        = internalPageVals (pagesGetter c1Router).1 c1Router ∧
      (readPage (pagesGetter c1Router).1 1).map PageObj.propsRef
        = (readPage c1Router.pages 0).map PageObj.propsRef :=
  have h := c1_snapshots_shallow_only c1Router ⟨by decide, by decide⟩
  ⟨h.1, h.2.2.1 1 (by decide) "http://x/other", h.2.2.2 0 1 0 rfl rfl⟩

end Navigare
